import Mathlib

/-!
Verification of the batched, cache-assisted upsert engine in
`src/pipeline/utils/pg.py` (class `DB`).

The development shallowly embeds the Python code: each generator and each
`select_*` helper becomes an executable Lean function over an explicit
`Store` record modelling the relational database.  Surrogate ids (UUIDs in
the database) are modelled as naturals drawn from a `nextId` counter,
tables as lists of `(id, row)` pairs, and Python dictionaries (the
per-call caches of `insert_versions`) as association lists.
-/

set_option autoImplicit false

namespace Teawel

/-- DEFAULT_BATCH_SIZE from pg.py line 28. -/
def DEFAULT_BATCH_SIZE : Nat := 10000

/-! ## The batcher (`DB._batch`)

`_batch` pulls items from a lazy generator into a buffer `batch`,
flushing (one `_insert_batch` call) whenever `len(batch) == batch_size`,
flushing the nonempty remainder after the loop, and then calling
`session.commit()` exactly once, after the loop. -/

/-- Loop body of `DB._batch`: given the remaining items and the current
buffer, return the list of flushed batches in order.  A flush happens
when the buffer, after appending the current item, has exactly
`batch_size` elements; after the loop a nonempty remainder is flushed. -/
def batchGo {α : Type} (B : Nat) : List α → List α → List (List α)
  | [], buf => if buf.isEmpty then [] else [buf]
  | x :: xs, buf =>
    let buf1 := buf ++ [x]
    if buf1.length = B then buf1 :: batchGo B xs [] else batchGo B xs buf1

/-- The sequence of flushes performed by `DB._batch items model batch_size`:
each element is the batch passed to one `_insert_batch` call. -/
def batchRun {α : Type} (items : List α) (B : Nat) : List (List α) :=
  batchGo B items []

/-- Observable events of one `_batch` run: a bulk-insert flush or a
transaction commit. -/
inductive Ev (α : Type) : Type
  | flush (batch : List α) : Ev α
  | commit : Ev α
deriving DecidableEq, Repr

/-- Whether an event is a commit. -/
def Ev.isCommit {α : Type} : Ev α → Bool
  | .commit => true
  | _ => false

/-- Whether an event is a flush. -/
def Ev.isFlush {α : Type} : Ev α → Bool
  | .flush _ => true
  | _ => false

/-- Event trace of the `_batch` loop body (flushes only; the commit sits
after the loop in the source). -/
def batchEventsGo {α : Type} (B : Nat) : List α → List α → List (Ev α)
  | [], buf => if buf.isEmpty then [] else [Ev.flush buf]
  | x :: xs, buf =>
    let buf1 := buf ++ [x]
    if buf1.length = B then Ev.flush buf1 :: batchEventsGo B xs [] else batchEventsGo B xs buf1

/-- Full event trace of `DB._batch`: the flushes of the loop, followed by
the single `session.commit()` at line 61 of pg.py. -/
def batchEvents {α : Type} (items : List α) (B : Nat) : List (Ev α) :=
  batchEventsGo B items [] ++ [Ev.commit]

/-! ## Reference chunking function

`chunksB B l` splits `l` into consecutive chunks of `B` elements, the
last chunk possibly shorter.  We prove `batchRun` equal to it and derive
all counting facts from it. -/

/-- Split a list into consecutive chunks of size `B` (last chunk ragged). -/
def chunksB {α : Type} (B : Nat) : List α → List (List α)
  | [] => []
  | x :: xs => (x :: xs.take (B - 1)) :: chunksB B (xs.drop (B - 1))
termination_by l => l.length
decreasing_by
  simp only [List.length_drop, List.length_cons]
  omega

@[simp] theorem chunksB_nil {α : Type} (B : Nat) : chunksB B ([] : List α) = [] := by
  simp [chunksB]

theorem chunksB_cons {α : Type} (B : Nat) (x : α) (xs : List α) :
    chunksB B (x :: xs) = (x :: xs.take (B - 1)) :: chunksB B (xs.drop (B - 1)) := by
  simp [chunksB]

/-- Unfolding of `chunksB` on a nonempty list, in `take`/`drop` form. -/
theorem chunksB_eq_cons {α : Type} {B : Nat} (hB : 0 < B) {l : List α} (hl : l ≠ []) :
    chunksB B l = l.take B :: chunksB B (l.drop B) := by
  cases l with
  | nil => exact absurd rfl hl
  | cons x xs =>
    rw [chunksB_cons]
    obtain ⟨B', rfl⟩ : ∃ B', B = B' + 1 := ⟨B - 1, by omega⟩
    simp [List.take_succ_cons, List.drop_succ_cons]

/-- The chunks concatenate back to the original list. -/
theorem chunksB_flatten {α : Type} (B : Nat) (l : List α) :
    (chunksB B l).flatten = l := by
  induction l using chunksB.induct B with
  | case1 => simp
  | case2 x xs ih =>
    rw [chunksB_cons]
    simp only [List.flatten_cons, ih]
    simp [List.take_append_drop]

/-- The `_batch` loop flushes exactly the `B`-chunks of the buffer
prefixed to the remaining items. -/
theorem batchGo_eq_chunksB {α : Type} {B : Nat} (hB : 0 < B) :
    ∀ (xs buf : List α), buf.length < B → batchGo B xs buf = chunksB B (buf ++ xs)
  | [], buf, _ => by
    cases hbuf : buf.isEmpty with
    | true =>
      simp only [batchGo, hbuf, if_pos rfl]
      simp_all [List.isEmpty_iff]
    | false =>
      have hne : buf ≠ [] := by simp_all [List.isEmpty_iff]
      simp only [batchGo, hbuf]
      rw [List.append_nil, chunksB_eq_cons hB hne]
      have h1 : buf.take B = buf := List.take_of_length_le (by omega)
      have h2 : buf.drop B = [] := List.drop_eq_nil_of_le (by omega)
      simp [h1, h2]
  | x :: xs, buf, hlen => by
    simp only [batchGo]
    by_cases hfull : (buf ++ [x]).length = B
    · rw [if_pos hfull]
      rw [batchGo_eq_chunksB hB xs [] (by simpa using hB)]
      have hne : buf ++ x :: xs ≠ [] := by simp
      rw [chunksB_eq_cons hB hne]
      have hx : buf ++ x :: xs = (buf ++ [x]) ++ xs := by simp
      have htake : (buf ++ x :: xs).take B = buf ++ [x] := by
        rw [hx, List.take_append_of_le_length (le_of_eq hfull.symm), List.take_of_length_le (le_of_eq hfull)]
      have hdrop : (buf ++ x :: xs).drop B = xs := by
        rw [hx, ← hfull, List.drop_left]
      rw [htake, hdrop]
      simp
    · rw [if_neg hfull]
      have hlen1 : (buf ++ [x]).length < B := by
        simp only [List.length_append, List.length_cons, List.length_nil] at *
        omega
      rw [batchGo_eq_chunksB hB xs (buf ++ [x]) hlen1]
      simp

/-- `DB._batch` flushes exactly the `B`-sized chunks of its input. -/
theorem batchRun_eq_chunksB {α : Type} {B : Nat} (hB : 0 < B) (items : List α) :
    batchRun items B = chunksB B items := by
  unfold batchRun
  rw [batchGo_eq_chunksB hB items [] (by simpa using hB)]
  simp

/-- The event trace of the loop is the flush per batch, in order. -/
theorem batchEventsGo_eq_map_flush {α : Type} (B : Nat) :
    ∀ (xs buf : List α), batchEventsGo B xs buf = (batchGo B xs buf).map Ev.flush
  | [], buf => by
    cases hbuf : buf.isEmpty <;> simp [batchEventsGo, batchGo, hbuf]
  | x :: xs, buf => by
    simp only [batchEventsGo, batchGo]
    by_cases hfull : (buf ++ [x]).length = B
    · rw [if_pos hfull, if_pos hfull, batchEventsGo_eq_map_flush B xs []]
      simp
    · rw [if_neg hfull, if_neg hfull, batchEventsGo_eq_map_flush B xs (buf ++ [x])]

/-! ## Data model

Candidate rows are the keyword arguments the builders pass to the model
constructors (`Package(...)`, `Version(...)`, ...).  The stored tables
hold `(id, row)` pairs; the surrogate id (a UUID in the database) is
modelled as a natural drawn from a per-store counter. -/

/-- Arguments of `Package(...)` in `insert_packages`. -/
structure PackageCand where
  derived_id : String
  name : String
  package_manager_id : Nat
  import_id : String
  readme : String
deriving DecidableEq, Repr

/-- Arguments of `Version(...)` in `insert_versions`. -/
structure VersionCand where
  package_id : Nat
  version : String
  import_id : String
  size : Nat
  published_at : Nat
  license_id : Nat
  downloads : Nat
  checksum : String
deriving DecidableEq, Repr

/-- Arguments of `License(...)` in `select_license_by_name`. -/
structure LicenseCand where
  name : String
deriving DecidableEq, Repr

/-- Arguments of `User(...)` in `insert_users`. -/
structure UserCand where
  username : String
  import_id : String
  source_id : Nat
deriving DecidableEq, Repr

/-- Arguments of `DependsOn(...)` in `insert_dependencies`.  The
timestamps record the `func.now()` value of the run. -/
structure DependsOnCand where
  version_id : Nat
  dependency_id : Nat
  semver_range : String
  created_at : Nat
  updated_at : Nat
deriving DecidableEq, Repr

/-- Arguments of `UserPackage(...)` in `insert_user_packages`. -/
structure UserPackageCand where
  user_id : Nat
  package_id : Nat
deriving DecidableEq, Repr

/-- Arguments of `UserVersion(...)` in `insert_user_versions`. -/
structure UserVersionCand where
  user_id : Nat
  version_id : Nat
deriving DecidableEq, Repr

/-- Arguments of `URL(...)` in `insert_urls`. -/
structure URLCand where
  url : String
  url_type_id : Nat
deriving DecidableEq, Repr

/-- Arguments of `PackageURL(...)` in `insert_package_urls`. -/
structure PackageURLCand where
  package_id : Nat
  url_id : Nat
deriving DecidableEq, Repr

/-- Arguments of `Source(...)` in `insert_source` (the source code passes
the name as the `type` column). -/
structure SourceCand where
  type : String
deriving DecidableEq, Repr

/-- The relational store, restricted to the tables the verified
operations read or write.  Each table is a list of `(surrogate id, row)`
pairs in insertion order; `nextId` models the supply of fresh surrogate
ids. -/
structure Store where
  nextId : Nat
  packages : List (Nat × PackageCand)
  versions : List (Nat × VersionCand)
  licenses : List (Nat × LicenseCand)
  users : List (Nat × UserCand)
  urls : List (Nat × URLCand)
  sources : List (Nat × SourceCand)
deriving DecidableEq, Repr

/-- A store with no rows. -/
def emptyStore : Store :=
  { nextId := 0, packages := [], versions := [], licenses := [], users := [],
    urls := [], sources := [] }

/-! ## Point and bulk selects (`DB.select_*`) -/

/-- DB.select_packages_by_import_ids: one bulk query filtering on
`import_id IN iids`. -/
def select_packages_by_import_ids (s : Store) (iids : List String) :
    List (Nat × PackageCand) :=
  s.packages.filter (fun r => iids.contains r.2.import_id)

/-- DB.select_licenses_by_name: one bulk query filtering on
`name IN names`. -/
def select_licenses_by_name (s : Store) (names : List String) :
    List (Nat × LicenseCand) :=
  s.licenses.filter (fun r => names.contains r.2.name)

/-- DB.select_package_by_import_id: `filter_by(import_id=...).first()`. -/
def select_package_by_import_id (s : Store) (iid : String) :
    Option (Nat × PackageCand) :=
  s.packages.find? (fun r => r.2.import_id == iid)

/-- DB.select_version_by_import_id: `filter_by(import_id=...).first()`. -/
def select_version_by_import_id (s : Store) (iid : String) :
    Option (Nat × VersionCand) :=
  s.versions.find? (fun r => r.2.import_id == iid)

/-- DB.select_crates_user_by_import_id: first user matching
`(import_id, source_id)`. -/
def select_crates_user_by_import_id (s : Store) (iid : String) (sourceId : Nat) :
    Option (Nat × UserCand) :=
  s.users.find? (fun r => r.2.import_id == iid && r.2.source_id == sourceId)

/-- DB.select_url_by_url_and_type: first url matching `(url, url_type_id)`. -/
def select_url_by_url_and_type (s : Store) (url : String) (urlTypeId : Nat) :
    Option (Nat × URLCand) :=
  s.urls.find? (fun r => r.2.url == url && r.2.url_type_id == urlTypeId)

/-- DB.select_license_by_name: point lookup by name; on a miss with
`create=True` it adds the row, commits, and re-queries
(`.first().id`), returning the id of the first row now carrying that
name.  Returns the id (or `None`) and the updated store. -/
def select_license_by_name (s : Store) (name : String) (create : Bool) :
    Option Nat × Store :=
  match s.licenses.find? (fun r => r.2.name == name) with
  | some r => (some r.1, s)
  | none =>
    if create then
      let s1 : Store :=
        { s with licenses := s.licenses ++ [(s.nextId, ⟨name⟩)],
                 nextId := s.nextId + 1 }
      ((s1.licenses.find? (fun r => r.2.name == name)).map (fun r => r.1), s1)
    else (none, s)

/-- DB.insert_source: `session.add(Source(type=name))`, commit, and
re-query `filter_by(type=name).first()`.  A plain add (no
ignore-on-conflict clause), modelled as an unconditional append. -/
def insert_source (s : Store) (name : String) :
    Option (Nat × SourceCand) × Store :=
  let s1 : Store :=
    { s with sources := s.sources ++ [(s.nextId, ⟨name⟩)],
             nextId := s.nextId + 1 }
  (s1.sources.find? (fun r => r.2.type == name), s1)

/-- DB.select_source_by_name: point lookup by the unique natural key
`type`; on a miss with `create=True`, fall through to `insert_source`. -/
def select_source_by_name (s : Store) (name : String) (create : Bool) :
    Option (Nat × SourceCand) × Store :=
  match s.sources.find? (fun r => r.2.type == name) with
  | some r => (some r, s)
  | none => if create then insert_source s name else (none, s)

/-! ## Raw input records

One structure per generator, holding the dictionary fields the builder
reads. -/

/-- Fields read from a package record. -/
structure PackageItem where
  name : String
  import_id : String
  readme : String
deriving DecidableEq, Repr

/-- Fields read from a version record. -/
structure VersionItem where
  crate_id : String
  license : String
  version : String
  import_id : String
  size : Nat
  published_at : Nat
  downloads : Nat
  checksum : String
deriving DecidableEq, Repr

/-- Fields read from a dependency record (`dependency_type` is read and
discarded by the source). -/
structure DepItem where
  start_id : String
  end_id : String
  semver_range : String
  dependency_type : String
deriving DecidableEq, Repr

/-- Fields read from a user-package record. -/
structure UserPackageItem where
  crate_id : String
  owner_id : String
deriving DecidableEq, Repr

/-- Fields read from a user-version record. -/
structure UserVersionItem where
  version_id : String
  published_by : String
deriving DecidableEq, Repr

/-- Fields read from a package-url record. -/
structure PackageURLItem where
  import_id : String
  url : String
  url_type_id : Nat
deriving DecidableEq, Repr

/-! ## Per-operation batch sizes

The third argument of each `self._batch(...)` call in pg.py.
`insert_package_urls` passes `DEFAULT_BATCH_SIZE / 10` (Python true
division yields the float 1000.0; `len(batch) == 1000.0` holds exactly
when the buffer holds 1000 items, so the effective size is the natural
1000). -/

/-- Batch size passed by `insert_packages` (pg.py line 105). -/
def insert_packages_batch_size : Nat := DEFAULT_BATCH_SIZE

/-- Batch size passed by `insert_versions` (pg.py line 242). -/
def insert_versions_batch_size : Nat := DEFAULT_BATCH_SIZE

/-- Batch size passed by `insert_dependencies` (pg.py line 276). -/
def insert_dependencies_batch_size : Nat := DEFAULT_BATCH_SIZE

/-- Batch size passed by `insert_users` (pg.py line 298). -/
def insert_users_batch_size : Nat := DEFAULT_BATCH_SIZE

/-- Batch size passed by `insert_user_packages` (pg.py line 320). -/
def insert_user_packages_batch_size : Nat := DEFAULT_BATCH_SIZE

/-- Batch size passed by `insert_user_versions` (pg.py line 342). -/
def insert_user_versions_batch_size : Nat := DEFAULT_BATCH_SIZE

/-- Batch size passed by `insert_urls` (pg.py line 351). -/
def insert_urls_batch_size : Nat := DEFAULT_BATCH_SIZE

/-- Batch size passed by `insert_package_urls` (pg.py line 380):
`DEFAULT_BATCH_SIZE / 10`. -/
def insert_package_urls_batch_size : Nat := DEFAULT_BATCH_SIZE / 10

/-! ## Entity builders (the nested generator functions) -/

/-- package_object_generator inside `insert_packages`: a pure map, no
resolver lookups. -/
def package_object_generator (pmid : Nat) (pmname : String)
    (items : List PackageItem) : List PackageCand :=
  items.map (fun it =>
    { derived_id := pmname ++ "/" ++ it.name
      name := it.name
      package_manager_id := pmid
      import_id := it.import_id
      readme := it.readme })

/-- dependency_object_generator inside `insert_dependencies`: resolves
the source version and the target package by point queries; on either
miss it warns and skips the record (`continue`).  Returns the produced
rows and the number of warnings.  `now` models `func.now()`. -/
def dependency_object_generator (s : Store) (now : Nat) :
    List DepItem → List DependsOnCand × Nat
  | [] => ([], 0)
  | item :: rest =>
    match select_version_by_import_id s item.start_id with
    | none =>
      let (rs, w) := dependency_object_generator s now rest
      (rs, w + 1)
    | some ver =>
      match select_package_by_import_id s item.end_id with
      | none =>
        let (rs, w) := dependency_object_generator s now rest
        (rs, w + 1)
      | some pkg =>
        let (rs, w) := dependency_object_generator s now rest
        ({ version_id := ver.1, dependency_id := pkg.1,
           semver_range := item.semver_range,
           created_at := now, updated_at := now } :: rs, w)

/-- user_package_object_generator inside `insert_user_packages`:
resolves the user by `(owner_id, source_id)` and the package by
`crate_id`; on either miss it warns and skips. -/
def user_package_object_generator (s : Store) (sourceId : Nat) :
    List UserPackageItem → List UserPackageCand × Nat
  | [] => ([], 0)
  | item :: rest =>
    match select_crates_user_by_import_id s item.owner_id sourceId with
    | none =>
      let (rs, w) := user_package_object_generator s sourceId rest
      (rs, w + 1)
    | some user =>
      match select_package_by_import_id s item.crate_id with
      | none =>
        let (rs, w) := user_package_object_generator s sourceId rest
        (rs, w + 1)
      | some pkg =>
        let (rs, w) := user_package_object_generator s sourceId rest
        ({ user_id := user.1, package_id := pkg.1 } :: rs, w)

/-- user_version_object_generator inside `insert_user_versions`:
resolves the user by `(published_by, source_id)` and the version by
`version_id`; on either miss it warns and skips. -/
def user_version_object_generator (s : Store) (sourceId : Nat) :
    List UserVersionItem → List UserVersionCand × Nat
  | [] => ([], 0)
  | item :: rest =>
    match select_crates_user_by_import_id s item.published_by sourceId with
    | none =>
      let (rs, w) := user_version_object_generator s sourceId rest
      (rs, w + 1)
    | some user =>
      match select_version_by_import_id s item.version_id with
      | none =>
        let (rs, w) := user_version_object_generator s sourceId rest
        (rs, w + 1)
      | some ver =>
        let (rs, w) := user_version_object_generator s sourceId rest
        ({ user_id := user.1, version_id := ver.1 } :: rs, w)

/-- package_url_object_generator inside `insert_package_urls`: resolves
the package by `import_id` and the url by `(url, url_type_id)`; on
either miss it warns and skips. -/
def package_url_object_generator (s : Store) :
    List PackageURLItem → List PackageURLCand × Nat
  | [] => ([], 0)
  | item :: rest =>
    match select_package_by_import_id s item.import_id with
    | none =>
      let (rs, w) := package_url_object_generator s rest
      (rs, w + 1)
    | some pkg =>
      match select_url_by_url_and_type s item.url item.url_type_id with
      | none =>
        let (rs, w) := package_url_object_generator s rest
        (rs, w + 1)
      | some url =>
        let (rs, w) := package_url_object_generator s rest
        ({ package_id := pkg.1, url_id := url.1 } :: rs, w)

/-! ## insert_versions: caches, chunk fill, builder, generator

`insert_versions` keeps two Python dictionaries (`package_cache`,
`license_cache`) in the enclosing scope, buffers raw records until
`DEFAULT_BATCH_SIZE` are held, pre-resolves each buffered chunk with one
bulk query per key type, builds the version rows of the chunk (skipping
package misses with a warning, creating licenses on a miss), and yields
the built list — unconditionally for a full mid-stream chunk, only when
nonempty for the end-of-stream remainder. -/

/-- Python dictionary assignment `cache[k] = v` on an association list:
overwrite an existing binding, else append. -/
def cacheSet (c : List (String × Nat)) (k : String) (v : Nat) :
    List (String × Nat) :=
  if c.any (fun p => p.1 == k) then
    c.map (fun p => if p.1 == k then (k, v) else p)
  else c ++ [(k, v)]

/-- Python `cache.get(k)`: `None` on a missing key. -/
def cacheGet (c : List (String × Nat)) (k : String) : Option Nat :=
  (c.find? (fun p => p.1 == k)).map (fun p => p.2)

/-- Python `set` accumulation `if k not in s: s.add(k)`: deduplicated
keys in first-occurrence order. -/
def distinctAdd (l : List String) (k : String) : List String :=
  if l.contains k then l else l ++ [k]

/-- The distinct `crate_id` fields of a chunk. -/
def crateIdsOf (items : List VersionItem) : List String :=
  items.foldl (fun acc it => distinctAdd acc it.crate_id) []

/-- The distinct `license` fields of a chunk. -/
def licenseNamesOf (items : List VersionItem) : List String :=
  items.foldl (fun acc it => distinctAdd acc it.license) []

/-- State threaded through `version_object_generator`: the store plus
the two closure-scoped caches. -/
structure VGenState where
  store : Store
  pkgCache : List (String × Nat)
  licCache : List (String × Nat)
deriving DecidableEq, Repr

/-- query_packages_and_licenses: one bulk package query and one bulk
license query for the chunk, each result folded into its cache. -/
def query_packages_and_licenses (st : VGenState) (items : List VersionItem) :
    VGenState :=
  let pkgs := select_packages_by_import_ids st.store (crateIdsOf items)
  let pkgCache1 := pkgs.foldl (fun c r => cacheSet c r.2.import_id r.1) st.pkgCache
  let lics := select_licenses_by_name st.store (licenseNamesOf items)
  let licCache1 := lics.foldl (fun c r => cacheSet c r.2.name r.1) st.licCache
  { st with pkgCache := pkgCache1, licCache := licCache1 }

/-- The per-record body of both chunk loops in
`version_object_generator`: package-cache miss warns and skips;
license-cache miss falls back to `select_license_by_name(create=True)`
and caches the returned id.  Returns the new state, the built row (if
any) and the number of warnings (0 or 1).  The `none` fallback of the
create call is unreachable (the re-query directly follows the insert);
Python would raise there (`None.id`). -/
def buildVersionRow (st : VGenState) (item : VersionItem) :
    VGenState × Option VersionCand × Nat :=
  match cacheGet st.pkgCache item.crate_id with
  | none => (st, none, 1)
  | some package_id =>
    match cacheGet st.licCache item.license with
    | some license_id =>
      (st, some { package_id := package_id, version := item.version,
                  import_id := item.import_id, size := item.size,
                  published_at := item.published_at, license_id := license_id,
                  downloads := item.downloads, checksum := item.checksum }, 0)
    | none =>
      let res := select_license_by_name st.store item.license true
      match res.1 with
      | some license_id =>
        ({ st with store := res.2,
                   licCache := cacheSet st.licCache item.license license_id },
         some { package_id := package_id, version := item.version,
                import_id := item.import_id, size := item.size,
                published_at := item.published_at, license_id := license_id,
                downloads := item.downloads, checksum := item.checksum }, 0)
      | none => ({ st with store := res.2 }, none, 0)

/-- The chunk loop: build each buffered record in order, collecting the
rows and warnings. -/
def buildChunkRows : VGenState → List VersionItem → VGenState × List VersionCand × Nat
  | st, [] => (st, [], 0)
  | st, item :: rest =>
    let (st1, r, w) := buildVersionRow st item
    let (st2, vs, w2) := buildChunkRows st1 rest
    (st2, (match r with | none => vs | some v => v :: vs), w + w2)

/-- Chunk processing: cache fill followed by the chunk loop (the loop
body duplicated in the source for the mid-stream and remainder paths is
line-for-line identical). -/
def processChunk (st : VGenState) (chunk : List VersionItem) :
    VGenState × List VersionCand × Nat :=
  buildChunkRows (query_packages_and_licenses st chunk) chunk

/-- version_object_generator: buffer raw records; once
`DEFAULT_BATCH_SIZE <= len(items_buffer)` process the chunk and yield
the built list unconditionally; after the stream ends process a
nonempty remainder and yield its list only `if versions:`.  Returns the
final state, the yielded lists in order, and the warning count. -/
def version_object_generator_go :
    VGenState → List VersionItem → List VersionItem →
      VGenState × List (List VersionCand) × Nat
  | st, buf, [] =>
    if buf.isEmpty then (st, [], 0)
    else
      let (st1, vs, w) := processChunk st buf
      (st1, if vs.isEmpty then [] else [vs], w)
  | st, buf, x :: rest =>
    let buf1 := buf ++ [x]
    if DEFAULT_BATCH_SIZE ≤ buf1.length then
      let (st1, vs, w) := processChunk st buf1
      let (st2, cs, w2) := version_object_generator_go st1 [] rest
      (st2, vs :: cs, w + w2)
    else
      version_object_generator_go st buf1 rest

/-- The generator of `insert_versions`, started with empty caches and an
empty buffer. -/
def version_object_generator (s : Store) (items : List VersionItem) :
    VGenState × List (List VersionCand) × Nat :=
  version_object_generator_go ⟨s, [], []⟩ [] items

/-! ## Facade operations needed by the claims -/

/-- Return value of a `self._batch(...)` call paired with its flush
trace: `_batch` ends without a `return` statement, so the call
evaluates to Python `None`, modelled as `none` in the domain
`Option (List Nat)` of the `List[UUID]` annotation on
`insert_packages`. -/
def batchCall {α : Type} (items : List α) (B : Nat) :
    List (List α) × Option (List Nat) :=
  (batchRun items B, none)

/-- DB.insert_packages: builds the package rows and returns the value of
the `self._batch(...)` call.  The first component is the flush trace,
the second the Python return value. -/
def insert_packages (items : List PackageItem) (pmid : Nat) (pmname : String) :
    List (List PackageCand) × Option (List Nat) :=
  batchCall (package_object_generator pmid pmname items) insert_packages_batch_size

/-- The flushes `_batch` performs for `insert_versions`: the generator
yields whole lists, so each flushed batch is a list of lists of version
rows. -/
def insert_versions_flushes (s : Store) (items : List VersionItem) :
    List (List (List VersionCand)) :=
  batchRun (version_object_generator s items).2.1 insert_versions_batch_size

/-- DB.insert_versions: run the generator through `_batch`.  Every flush
calls `_insert_batch`, which maps `item.to_dict()` over the batch; the
items here are Python lists of versions, and a list has no `to_dict`,
so the first flush raises AttributeError.  Modelled: the call errors
exactly when at least one flush occurs, and otherwise commits the store
as left by the generator (whose license creations have already
committed). -/
def insert_versions (s : Store) (items : List VersionItem) :
    Except String Store :=
  let r := version_object_generator s items
  match batchRun r.2.1 insert_versions_batch_size with
  | [] => Except.ok r.1.store
  | _ :: _ => Except.error "AttributeError: list object has no attribute to_dict"

/-! ## Counting facts about chunks -/

/-- Number of chunks: the ceiling of `length / B`. -/
theorem chunksB_length {α : Type} {B : Nat} (hB : 0 < B) (l : List α) :
    (chunksB B l).length = (l.length + B - 1) / B := by
  induction l using chunksB.induct B with
  | case1 =>
    rw [chunksB_nil]
    simp only [List.length_nil]
    exact (Nat.div_eq_of_lt (by omega)).symm
  | case2 x xs ih =>
    rw [chunksB_cons]
    simp only [List.length_cons, ih, List.length_drop]
    have h1 : xs.length + 1 + B - 1 = xs.length + B := by omega
    rw [h1, Nat.add_div_right _ hB]
    by_cases hc : B - 1 ≤ xs.length
    · have h2 : xs.length - (B - 1) + B - 1 = xs.length := by omega
      rw [h2]
    · have h2 : xs.length - (B - 1) + B - 1 = B - 1 := by omega
      rw [h2, Nat.div_eq_of_lt (by omega), Nat.div_eq_of_lt (by omega)]

/-- The `i`-th chunk is the `B`-window of the list starting at `B * i`. -/
theorem chunksB_getElem {α : Type} {B : Nat} (hB : 0 < B) (l : List α) :
    ∀ i : Nat,
      (chunksB B l)[i]? =
        if B * i < l.length then some ((l.drop (B * i)).take B) else none := by
  induction l using chunksB.induct B with
  | case1 => intro i; simp
  | case2 x xs ih =>
    intro i
    rw [chunksB_cons]
    cases i with
    | zero =>
      simp only [List.getElem?_cons_zero, Nat.mul_zero, List.drop_zero,
        List.length_cons]
      rw [if_pos (by omega)]
      obtain ⟨B', rfl⟩ : ∃ B', B = B' + 1 := ⟨B - 1, by omega⟩
      simp [List.take_succ_cons]
    | succ j =>
      simp only [List.getElem?_cons_succ]
      rw [ih j, List.length_drop, List.length_cons]
      have hmul : B * (j + 1) = B * j + B := Nat.mul_succ B j
      by_cases hcond : B * j < xs.length - (B - 1)
      · rw [if_pos hcond, if_pos (by omega)]
        rw [List.drop_drop]
        have h2 : B * (j + 1) = (B * j + (B - 1)) + 1 := by omega
        rw [h2, List.drop_succ_cons, Nat.add_comm (B - 1) (B * j)]
      · rw [if_neg hcond, if_neg (by omega)]

/-! ## C2: batch-boundary correctness -/

/-- C2: for an input of `N` items and batch size `B > 0`, `_batch`
performs exactly the ceiling of `N / B` flushes; the `i`-th flush for
`i` below the floor of `N / B` holds exactly `B` items; for a nonempty
input the final flush holds `N mod B` items (or `B` when `N mod B = 0`);
and for `N = 0` no flush occurs. -/
theorem C2_batch_boundaries {α : Type} (items : List α) (B : Nat) (hB : 0 < B) :
    (batchRun items B).length = (items.length + B - 1) / B
    ∧ (∀ i c, i < items.length / B → (batchRun items B)[i]? = some c →
        c.length = B)
    ∧ (items ≠ [] → ∃ c, (batchRun items B).getLast? = some c ∧
        c.length = if items.length % B = 0 then B else items.length % B)
    ∧ (items = [] → batchRun items B = []) := by
  rw [batchRun_eq_chunksB hB]
  refine ⟨chunksB_length hB items, ?_, ?_, ?_⟩
  · intro i c hi hc
    rw [chunksB_getElem hB items i] at hc
    have hBi : B * (i + 1) ≤ items.length := by
      have h1 : (i + 1) * B ≤ items.length := (Nat.le_div_iff_mul_le hB).mp hi
      have h2 : B * (i + 1) = (i + 1) * B := Nat.mul_comm _ _
      omega
    have hmul : B * (i + 1) = B * i + B := Nat.mul_succ B i
    rw [if_pos (by omega)] at hc
    have hc2 : c = (items.drop (B * i)).take B := by
      injection hc with h; exact h.symm
    subst hc2
    rw [List.length_take, List.length_drop]
    omega
  · intro hne
    have hlen : 0 < items.length := List.length_pos.mpr hne
    set N := items.length with hN
    set q := (N - 1) / B with hq
    set r := (N - 1) % B with hr
    have hqr : B * q + r = N - 1 := Nat.div_add_mod (N - 1) B
    have hrB : r < B := Nat.mod_lt _ hB
    have hlenq : (chunksB B items).length = q + 1 := by
      rw [chunksB_length hB items, ← hN]
      have h1 : N + B - 1 = (N - 1) + B := by omega
      rw [h1, Nat.add_div_right _ hB]
    have hget : (chunksB B items)[q]? = some ((items.drop (B * q)).take B) := by
      rw [chunksB_getElem hB items q, if_pos (by omega)]
    refine ⟨(items.drop (B * q)).take B, ?_, ?_⟩
    · rw [List.getLast?_eq_getElem?, hlenq]
      simpa using hget
    · rw [List.length_take, List.length_drop, ← hN]
      have hlen2 : min B (N - B * q) = r + 1 := by omega
      rw [hlen2]
      by_cases hfull : r + 1 = B
      · have hNe : N = B * (q + 1) := by
          have h : B * (q + 1) = B * q + B := by ring
          omega
        rw [if_pos (by rw [hNe]; exact Nat.mul_mod_right B (q + 1))]
        omega
      · have hNe : N = (r + 1) + B * q := by omega
        have hmod : N % B = r + 1 := by
          rw [hNe, Nat.add_mul_mod_self_left]
          exact Nat.mod_eq_of_lt (by omega)
        rw [if_neg (by omega), hmod]
  · intro he
    subst he
    rw [chunksB_nil]

/-- Witness for C2 at a concrete input: three items with batch size two
give two flushes, and the final flush holds one item. -/
theorem C2_batch_boundaries_witness :
    (0 < 2) ∧
    (batchRun ([10, 20, 30] : List Nat) 2).length = 2 ∧
    (∃ c, (batchRun ([10, 20, 30] : List Nat) 2).getLast? = some c ∧
      c.length = 1) := by
  have h := C2_batch_boundaries ([10, 20, 30] : List Nat) 2 (by decide)
  refine ⟨by decide, by simpa using h.1, ?_⟩
  have h3 := h.2.2.1 (by decide)
  exact h3

/-! ## C3: commits per flush -/

/-- Loop events carry no commit. -/
theorem batchEventsGo_countP_commit {α : Type} (B : Nat) (xs buf : List α) :
    (batchEventsGo B xs buf).countP Ev.isCommit = 0 := by
  rw [batchEventsGo_eq_map_flush]
  induction batchGo B xs buf with
  | nil => rfl
  | cons c cs ih => simp [Ev.isCommit, ih]

/-- Counterexample to C3 as stated: two items with batch size one
produce two flushes but a single commit, so the commit count does not
equal the flush count. -/
theorem C3_claim_counterexample :
    (batchRun ([0, 1] : List Nat) 1).length = 2 ∧
    (batchEvents ([0, 1] : List Nat) 1).countP Ev.isCommit = 1 ∧
    ¬ (batchEvents ([0, 1] : List Nat) 1).countP Ev.isCommit
        = (batchRun ([0, 1] : List Nat) 1).length := by
  decide

/-- C3 amended: `_batch` performs exactly one commit per run — the
trace is all the flushes, in order, followed by a single commit, so no
flush's rows are committed before the following flush begins. -/
theorem C3_one_commit_per_run {α : Type} (items : List α) (B : Nat) :
    batchEvents items B = (batchRun items B).map Ev.flush ++ [Ev.commit]
    ∧ (batchEvents items B).countP Ev.isCommit = 1 := by
  constructor
  · unfold batchEvents batchRun
    rw [batchEventsGo_eq_map_flush]
  · unfold batchEvents
    rw [List.countP_append, batchEventsGo_countP_commit]
    rfl

/-! ## C6: get-or-create on Source -/

/-- C6: with the name absent, get-or-create on Source inserts one row
and re-queries it; the second call finds that row by its unique natural
key, inserts nothing, and returns the same surrogate id. -/
theorem C6_source_get_or_create (s : Store) (name : String)
    (habs : s.sources.find? (fun r => r.2.type == name) = none) :
    (select_source_by_name s name true).1 = some (s.nextId, ⟨name⟩)
    ∧ (select_source_by_name (select_source_by_name s name true).2 name true).1
        = some (s.nextId, ⟨name⟩)
    ∧ (select_source_by_name (select_source_by_name s name true).2 name true).2
        = (select_source_by_name s name true).2
    ∧ (select_source_by_name s name true).2.sources
        = s.sources ++ [(s.nextId, ⟨name⟩)] := by
  have hfind : (s.sources ++ [(s.nextId, (⟨name⟩ : SourceCand))]).find?
      (fun r => r.2.type == name) = some (s.nextId, ⟨name⟩) := by
    rw [List.find?_append, habs]
    simp
  constructor
  · simp only [select_source_by_name, habs, insert_source, if_pos]
    simpa using hfind
  constructor
  · simp only [select_source_by_name, habs, insert_source, if_pos]
    simp only [hfind]
  constructor
  · simp only [select_source_by_name, habs, insert_source, if_pos]
    simp only [hfind]
  · simp only [select_source_by_name, habs, insert_source, if_pos]

/-- Witness for C6: get-or-create of Source "npm" on the empty store. -/
theorem C6_source_get_or_create_witness :
    emptyStore.sources.find? (fun r => r.2.type == "npm") = none ∧
    (select_source_by_name emptyStore "npm" true).1 = some (0, ⟨"npm"⟩) ∧
    (select_source_by_name (select_source_by_name emptyStore "npm" true).2
        "npm" true).1 = some (0, ⟨"npm"⟩) ∧
    (select_source_by_name emptyStore "npm" true).2.sources
        = [(0, ⟨"npm"⟩)] := by
  have h := C6_source_get_or_create emptyStore "npm" rfl
  refine ⟨rfl, ?_, ?_, ?_⟩
  · simpa [emptyStore] using h.1
  · simpa [emptyStore] using h.2.1
  · simpa [emptyStore] using h.2.2.2

/-! ## C7: per-operation batch sizes -/

/-- Counterexample to C7 as stated: `insert_dependencies` — an
operation whose builder performs per-item resolver lookups — passes the
full 10,000-row default to `_batch`, not a smaller size. -/
theorem C7_claim_counterexample :
    insert_dependencies_batch_size = DEFAULT_BATCH_SIZE ∧
    ¬ insert_dependencies_batch_size < DEFAULT_BATCH_SIZE := by
  decide

/-- C7 amended: only `insert_package_urls` uses a reduced batch size
(1,000 = default / 10); `insert_dependencies`, `insert_user_packages`
and `insert_user_versions` pass the 10,000-row default despite their
per-item resolver lookups. -/
theorem C7_batch_size_values :
    insert_package_urls_batch_size = 1000 ∧
    insert_package_urls_batch_size < DEFAULT_BATCH_SIZE ∧
    insert_dependencies_batch_size = 10000 ∧
    insert_user_packages_batch_size = 10000 ∧
    insert_user_versions_batch_size = 10000 := by
  decide

/-! ## C10: return value of insert_packages -/

/-- C10: `insert_packages` returns the value of the `self._batch(...)`
call, and `_batch` ends without a return statement, so the caller
always receives Python `None` — never the `List[UUID]` promised by the
annotation. -/
theorem C10_insert_packages_returns_none
    (items : List PackageItem) (pmid : Nat) (pmname : String) :
    (insert_packages items pmid pmname).2 = none :=
  rfl

/-! ## Cache lemmas -/

/-- A cache lookup hits exactly when some binding carries the key. -/
theorem cacheGet_isSome_eq_any (c : List (String × Nat)) (k : String) :
    (cacheGet c k).isSome = c.any (fun p => p.1 == k) := by
  rw [Bool.eq_iff_iff]
  unfold cacheGet
  rw [Option.isSome_map']
  rw [List.find?_isSome, List.any_eq_true]

/-- Keys present after a dictionary assignment: the old keys plus the
assigned one. -/
theorem cacheSet_any (c : List (String × Nat)) (k0 k : String) (v : Nat) :
    ((cacheSet c k0 v).any (fun p => p.1 == k))
      = (c.any (fun p => p.1 == k) || (k0 == k)) := by
  unfold cacheSet
  by_cases h : c.any (fun p => p.1 == k0) = true
  · rw [if_pos h]
    by_cases hk : k0 = k
    · subst hk
      simp only [beq_self_eq_true, Bool.or_true]
      rw [List.any_eq_true] at h ⊢
      obtain ⟨p, hp, hpk⟩ := h
      exact ⟨(k0, v), List.mem_map.mpr ⟨p, hp, by simp [hpk]⟩, by simp⟩
    · have haux : ∀ (d : List (String × Nat)),
          (d.map (fun p => if p.1 == k0 then (k0, v) else p)).any
              (fun p => p.1 == k)
            = d.any (fun p => p.1 == k) := by
        intro d
        induction d with
        | nil => rfl
        | cons p ps ih =>
          simp only [List.map_cons, List.any_cons, ih]
          congr 1
          by_cases hp : p.1 == k0
          · have hpe : p.1 = k0 := by simpa using hp
            simp [hp, hpe]
          · simp [hp]
      rw [haux c]
      have hne : (k0 == k) = false := by simpa using hk
      simp [hne]
  · rw [if_neg h]
    simp

/-- Key presence after folding `cache[key(r)] = id(r)` over a row list. -/
theorem cacheGet_foldl_cacheSet_isSome {β : Type} (f : β → String) (g : β → Nat) :
    ∀ (rows : List β) (c : List (String × Nat)) (k : String),
      (cacheGet (rows.foldl (fun c r => cacheSet c (f r) (g r)) c) k).isSome
        = (c.any (fun p => p.1 == k) || rows.any (fun r => f r == k))
  | [], c, k => by simp [cacheGet_isSome_eq_any]
  | r :: rows, c, k => by
    simp only [List.foldl_cons, List.any_cons]
    rw [cacheGet_foldl_cacheSet_isSome f g rows (cacheSet c (f r) (g r)) k,
      cacheSet_any]
    cases c.any (fun p => p.1 == k) <;> cases (f r == k) <;>
      cases rows.any (fun r => f r == k) <;> rfl

/-! ## Deduplicated key-set lemmas -/

/-- Membership is preserved by a set add. -/
theorem distinctAdd_contains_of (l : List String) (k0 k : String)
    (h : l.contains k = true) : (distinctAdd l k0).contains k = true := by
  unfold distinctAdd
  by_cases hc : l.contains k0 = true
  · rw [if_pos hc]; exact h
  · rw [if_neg hc]
    simp only [List.contains_eq_any_beq, List.any_append] at h ⊢
    simp [h]

/-- The added key is a member afterwards. -/
theorem distinctAdd_contains_self (l : List String) (k : String) :
    (distinctAdd l k).contains k = true := by
  unfold distinctAdd
  by_cases hc : l.contains k = true
  · rw [if_pos hc]; exact hc
  · rw [if_neg hc]
    simp [List.contains_eq_any_beq]

/-- Any element of the chunk appears in the accumulated set of a
deduplicating fold over it. -/
theorem foldl_distinctAdd_contains {β : Type} (f : β → String) :
    ∀ (l : List β) (acc : List String) (i : β), i ∈ l →
      ((l.foldl (fun a i => distinctAdd a (f i)) acc).contains (f i)) = true
  | [], acc, i, hi => absurd hi (List.not_mem_nil i)
  | j :: l, acc, i, hi => by
    simp only [List.foldl_cons]
    rcases List.mem_cons.mp hi with he | hm
    · subst he
      have hcontains : ∀ (l : List β) (acc : List String),
          acc.contains (f i) = true →
          ((l.foldl (fun a i => distinctAdd a (f i)) acc).contains (f i)) = true := by
        intro l
        induction l with
        | nil => intro acc h; exact h
        | cons x xs ih =>
          intro acc h
          exact ih _ (distinctAdd_contains_of _ _ _ h)
      exact hcontains l _ (distinctAdd_contains_self acc (f i))
    · exact foldl_distinctAdd_contains f l _ i hm

/-- A record's crate id is in the chunk's deduplicated crate-id set. -/
theorem contains_crateIdsOf (C : List VersionItem) (x : VersionItem)
    (hx : x ∈ C) : (crateIdsOf C).contains x.crate_id = true :=
  foldl_distinctAdd_contains (fun i => i.crate_id) C [] x hx

/-! ## Cache-fill lemmas for insert_versions -/

/-- The bulk-query fill touches only the caches, not the store. -/
theorem query_packages_and_licenses_store (st : VGenState) (C : List VersionItem) :
    (query_packages_and_licenses st C).store = st.store := rfl

/-- Key presence in the package cache after a fill. -/
theorem cacheGet_fill_pkg_isSome (st : VGenState) (C : List VersionItem) (k : String) :
    (cacheGet (query_packages_and_licenses st C).pkgCache k).isSome
      = ((cacheGet st.pkgCache k).isSome
         || (select_packages_by_import_ids st.store (crateIdsOf C)).any
              (fun r => r.2.import_id == k)) := by
  simp only [query_packages_and_licenses]
  have h := cacheGet_foldl_cacheSet_isSome (fun r : Nat × PackageCand => r.2.import_id)
    (fun r => r.1) (select_packages_by_import_ids st.store (crateIdsOf C)) st.pkgCache k
  rw [← cacheGet_isSome_eq_any] at h
  exact h

/-- The package cache only ever holds keys of packages present in the
store (it is filled exclusively from bulk query results). -/
def pkgCacheSound (st : VGenState) : Prop :=
  ∀ k, (cacheGet st.pkgCache k).isSome = true →
    st.store.packages.any (fun r => r.2.import_id == k) = true

/-- A fill preserves package-cache soundness. -/
theorem fill_pkgCacheSound (st : VGenState) (C : List VersionItem)
    (h : pkgCacheSound st) : pkgCacheSound (query_packages_and_licenses st C) := by
  intro k hk
  rw [query_packages_and_licenses_store]
  rw [cacheGet_fill_pkg_isSome] at hk
  rcases Bool.or_eq_true_iff.mp hk with h1 | h2
  · exact h k h1
  · unfold select_packages_by_import_ids at h2
    rw [List.any_filter, List.any_eq_true] at h2
    rw [List.any_eq_true]
    obtain ⟨r, hr, hpr⟩ := h2
    exact ⟨r, hr, (Bool.and_eq_true_iff.mp hpr).2⟩

/-- After the fill for a chunk, the cache hit on a chunk record's crate
id coincides with the presence of that import id in the store. -/
theorem fill_pkg_hit (st : VGenState) (C : List VersionItem) (x : VersionItem)
    (hx : x ∈ C) (hsound : pkgCacheSound st) :
    (cacheGet (query_packages_and_licenses st C).pkgCache x.crate_id).isSome
      = st.store.packages.any (fun r => r.2.import_id == x.crate_id) := by
  rw [cacheGet_fill_pkg_isSome]
  cases hany : st.store.packages.any (fun r => r.2.import_id == x.crate_id) with
  | true =>
    have hfil : (select_packages_by_import_ids st.store (crateIdsOf C)).any
        (fun r => r.2.import_id == x.crate_id) = true := by
      unfold select_packages_by_import_ids
      rw [List.any_filter, List.any_eq_true]
      rw [List.any_eq_true] at hany
      obtain ⟨r, hr, hpr⟩ := hany
      refine ⟨r, hr, ?_⟩
      have he : r.2.import_id = x.crate_id := by simpa using hpr
      rw [Bool.and_eq_true]
      exact ⟨by rw [he]; exact contains_crateIdsOf C x hx, hpr⟩
    simp [hfil]
  | false =>
    have hold : (cacheGet st.pkgCache x.crate_id).isSome = false := by
      cases hv : (cacheGet st.pkgCache x.crate_id).isSome with
      | false => rfl
      | true =>
        have := hsound _ hv
        rw [hany] at this
        exact absurd this (by simp)
    have hfil : (select_packages_by_import_ids st.store (crateIdsOf C)).any
        (fun r => r.2.import_id == x.crate_id) = false := by
      rw [← Bool.not_eq_true]
      intro hv
      unfold select_packages_by_import_ids at hv
      rw [List.any_filter, List.any_eq_true] at hv
      obtain ⟨r, hr, hpr⟩ := hv
      have h2 := (Bool.and_eq_true_iff.mp hpr).2
      have : st.store.packages.any (fun r => r.2.import_id == x.crate_id) = true :=
        List.any_eq_true.mpr ⟨r, hr, h2⟩
      rw [hany] at this
      exact absurd this (by simp)
    rw [hold, hfil]
    rfl

/-! ## Per-record builder lemmas -/

/-- select_license_by_name never touches the packages table. -/
theorem select_license_by_name_packages (s : Store) (n : String) (c : Bool) :
    (select_license_by_name s n c).2.packages = s.packages := by
  unfold select_license_by_name
  cases hf : s.licenses.find? (fun r => r.2.name == n) with
  | some r => rfl
  | none => cases c <;> simp

/-- With `create=True`, select_license_by_name always returns an id: the
re-query directly follows the insert of the missing row. -/
theorem select_license_by_name_create_isSome (s : Store) (n : String) :
    ((select_license_by_name s n true).1).isSome = true := by
  unfold select_license_by_name
  cases hf : s.licenses.find? (fun r => r.2.name == n) with
  | some r => rfl
  | none =>
    simp only [if_true]
    rw [List.find?_append, hf]
    simp

/-- The per-record builder never writes the package cache. -/
theorem buildVersionRow_pkgCache (st : VGenState) (x : VersionItem) :
    (buildVersionRow st x).1.pkgCache = st.pkgCache := by
  cases h1 : cacheGet st.pkgCache x.crate_id with
  | none => simp [buildVersionRow, h1]
  | some pid =>
    cases h2 : cacheGet st.licCache x.license with
    | some lid => simp [buildVersionRow, h1, h2]
    | none =>
      cases h3 : (select_license_by_name st.store x.license true).1 with
      | some lid => simp [buildVersionRow, h1, h2, h3]
      | none => simp [buildVersionRow, h1, h2, h3]

/-- The per-record builder never writes the packages table. -/
theorem buildVersionRow_packages (st : VGenState) (x : VersionItem) :
    (buildVersionRow st x).1.store.packages = st.store.packages := by
  cases h1 : cacheGet st.pkgCache x.crate_id with
  | none => simp [buildVersionRow, h1]
  | some pid =>
    cases h2 : cacheGet st.licCache x.license with
    | some lid => simp [buildVersionRow, h1, h2]
    | none =>
      cases h3 : (select_license_by_name st.store x.license true).1 with
      | some lid =>
        simp [buildVersionRow, h1, h2, h3, select_license_by_name_packages]
      | none =>
        simp [buildVersionRow, h1, h2, h3, select_license_by_name_packages]

/-- The per-record builder produces a row exactly on a package-cache
hit, and one warning exactly on a miss. -/
theorem buildVersionRow_spec (st : VGenState) (x : VersionItem) :
    ((buildVersionRow st x).2.1.isSome = (cacheGet st.pkgCache x.crate_id).isSome)
    ∧ ((buildVersionRow st x).2.2
        = if (cacheGet st.pkgCache x.crate_id).isSome = true then 0 else 1) := by
  cases h1 : cacheGet st.pkgCache x.crate_id with
  | none => simp [buildVersionRow, h1]
  | some pid =>
    cases h2 : cacheGet st.licCache x.license with
    | some lid => simp [buildVersionRow, h1, h2]
    | none =>
      cases h3 : (select_license_by_name st.store x.license true).1 with
      | some lid => simp [buildVersionRow, h1, h2, h3]
      | none =>
        have := select_license_by_name_create_isSome st.store x.license
        rw [h3] at this
        exact absurd this (by simp)

/-- The chunk loop produces one row per cached package hit and one
warning per miss, and touches neither the package cache nor the
packages table. -/
theorem buildChunkRows_spec :
    ∀ (C : List VersionItem) (st : VGenState),
      (∀ x ∈ C, (cacheGet st.pkgCache x.crate_id).isSome
          = st.store.packages.any (fun r => r.2.import_id == x.crate_id)) →
      ((buildChunkRows st C).2.1.length
          = C.countP (fun x =>
              st.store.packages.any (fun r => r.2.import_id == x.crate_id)))
      ∧ ((buildChunkRows st C).2.2
          = C.countP (fun x =>
              !(st.store.packages.any (fun r => r.2.import_id == x.crate_id))))
      ∧ (buildChunkRows st C).1.pkgCache = st.pkgCache
      ∧ (buildChunkRows st C).1.store.packages = st.store.packages
  | [], st, _ => by simp [buildChunkRows]
  | x :: C, st, hagree => by
    have hx := hagree x (List.mem_cons_self x C)
    simp only [buildChunkRows]
    rcases hbv : buildVersionRow st x with ⟨st1, r, w⟩
    have hpkgc := buildVersionRow_pkgCache st x
    have hpack := buildVersionRow_packages st x
    obtain ⟨hrow, hwarn⟩ := buildVersionRow_spec st x
    rw [hbv] at hpkgc hpack hrow hwarn
    dsimp only at hpkgc hpack hrow hwarn
    have hagree1 : ∀ y ∈ C, (cacheGet st1.pkgCache y.crate_id).isSome
        = st1.store.packages.any (fun r => r.2.import_id == y.crate_id) := by
      intro y hy
      rw [hpkgc, hpack]
      exact hagree y (List.mem_cons_of_mem _ hy)
    have ih := buildChunkRows_spec C st1 hagree1
    rcases hbc : buildChunkRows st1 C with ⟨st2, vs, w2⟩
    rw [hbc] at ih
    obtain ⟨ih1, ih2, ih3, ih4⟩ := ih
    dsimp only at ih1 ih2 ih3 ih4
    rw [hpack] at ih1 ih2
    simp only [List.countP_cons]
    refine ⟨?_, ?_, ?_, ?_⟩
    · cases hr : r with
      | none =>
        rw [hr] at hrow
        simp only [Option.isSome_none] at hrow
        rw [hx] at hrow
        simp [ih1, ← hrow]
      | some v =>
        rw [hr] at hrow
        simp only [Option.isSome_some] at hrow
        rw [hx] at hrow
        simp [ih1, ← hrow]
    · rw [hwarn, hx, ih2]
      cases hany : st.store.packages.any (fun r => r.2.import_id == x.crate_id) with
      | true => simp [hany]
      | false => simp [hany]; omega
    · rw [ih3, hpkgc]
    · rw [ih4, hpack]

/-- Chunk processing (fill plus loop): one row per store-resolvable
record, one warning per unresolvable record, packages table untouched,
cache soundness preserved. -/
theorem processChunk_spec (st : VGenState) (C : List VersionItem)
    (hsound : pkgCacheSound st) :
    ((processChunk st C).2.1.length
        = C.countP (fun x =>
            st.store.packages.any (fun r => r.2.import_id == x.crate_id)))
    ∧ ((processChunk st C).2.2
        = C.countP (fun x =>
            !(st.store.packages.any (fun r => r.2.import_id == x.crate_id))))
    ∧ (processChunk st C).1.store.packages = st.store.packages
    ∧ pkgCacheSound (processChunk st C).1 := by
  unfold processChunk
  have hagree : ∀ x ∈ C,
      (cacheGet (query_packages_and_licenses st C).pkgCache x.crate_id).isSome
        = (query_packages_and_licenses st C).store.packages.any
            (fun r => r.2.import_id == x.crate_id) :=
    fun x hxC => fill_pkg_hit st C x hxC hsound
  obtain ⟨h1, h2, h3, h4⟩ :=
    buildChunkRows_spec C (query_packages_and_licenses st C) hagree
  refine ⟨h1, h2, h4, ?_⟩
  intro k hk
  rw [h3] at hk
  rw [h4]
  exact fill_pkgCacheSound st C hsound k hk

/-- Whether a version record's package reference resolves against the
store (the condition the chunk fill reproduces in the cache). -/
def versionResolvable (s : Store) (x : VersionItem) : Bool :=
  (select_package_by_import_id s x.crate_id).isSome

/-- Resolvability as a bulk-filter condition. -/
theorem versionResolvable_eq_any (s : Store) (x : VersionItem) :
    versionResolvable s x
      = s.packages.any (fun r => r.2.import_id == x.crate_id) := by
  unfold versionResolvable select_package_by_import_id
  rw [Bool.eq_iff_iff, List.find?_isSome, List.any_eq_true]

/-- Length of the flattened yield of one buffer flush. -/
theorem flatten_yield_length (vs : List VersionCand) :
    ((if vs.isEmpty then ([] : List (List VersionCand)) else [vs]).flatten.length)
      = vs.length := by
  cases hvs : vs.isEmpty with
  | true =>
    rw [if_pos rfl]
    have : vs = [] := by simpa [List.isEmpty_iff] using hvs
    simp [this]
  | false => simp

/-- Counting invariant of the version generator loop: one built row per
resolvable record and one warning per unresolvable record, over the
buffered prefix and the remaining stream. -/
theorem version_go_count :
    ∀ (rest : List VersionItem) (st : VGenState) (buf : List VersionItem),
      pkgCacheSound st →
      ((version_object_generator_go st buf rest).2.1.flatten.length
          = (buf ++ rest).countP (fun x =>
              st.store.packages.any (fun r => r.2.import_id == x.crate_id)))
      ∧ ((version_object_generator_go st buf rest).2.2
          = (buf ++ rest).countP (fun x =>
              !(st.store.packages.any (fun r => r.2.import_id == x.crate_id))))
  | [], st, buf, hsound => by
    simp only [version_object_generator_go]
    cases hbuf : buf.isEmpty with
    | true =>
      have : buf = [] := by simpa [List.isEmpty_iff] using hbuf
      simp [this]
    | false =>
      rw [if_neg (by simp [hbuf])]
      rcases hpc : processChunk st buf with ⟨st1, vs, w⟩
      obtain ⟨h1, h2, h3, h4⟩ := processChunk_spec st buf hsound
      rw [hpc] at h1 h2
      dsimp only at h1 h2 ⊢
      rw [List.append_nil]
      exact ⟨by rw [flatten_yield_length]; exact h1, h2⟩
  | x :: rest, st, buf, hsound => by
    simp only [version_object_generator_go]
    by_cases hfull : DEFAULT_BATCH_SIZE ≤ (buf ++ [x]).length
    · rw [if_pos hfull]
      rcases hpc : processChunk st (buf ++ [x]) with ⟨st1, vs, w⟩
      obtain ⟨h1, h2, h3, h4⟩ := processChunk_spec st (buf ++ [x]) hsound
      rw [hpc] at h1 h2 h3 h4
      dsimp only at h1 h2 h3 h4 ⊢
      rcases hgo : version_object_generator_go st1 [] rest with ⟨st2, cs, w2⟩
      obtain ⟨g1, g2⟩ := version_go_count rest st1 [] h4
      rw [hgo] at g1 g2
      dsimp only at g1 g2 ⊢
      simp only [List.nil_append] at g1 g2
      rw [h3] at g1 g2
      have hsplit : buf ++ x :: rest = (buf ++ [x]) ++ rest := by simp
      rw [hsplit]
      constructor
      · simp only [List.flatten_cons, List.length_append]
        rw [List.countP_append]
        omega
      · rw [List.countP_append]
        omega
    · rw [if_neg hfull]
      obtain ⟨g1, g2⟩ := version_go_count rest st (buf ++ [x]) hsound
      have hsplit : buf ++ x :: rest = (buf ++ [x]) ++ rest := by simp
      rw [hsplit]
      exact ⟨g1, g2⟩

/-! ## Skip behaviour of the per-item builders -/

/-- A dependency record whose source version or target package lookup
misses. -/
def depUnresolved (s : Store) (x : DepItem) : Bool :=
  (select_version_by_import_id s x.start_id).isNone
  || (select_package_by_import_id s x.end_id).isNone

/-- A user-package record whose user or package lookup misses. -/
def userPackageUnresolved (s : Store) (sourceId : Nat) (x : UserPackageItem) : Bool :=
  (select_crates_user_by_import_id s x.owner_id sourceId).isNone
  || (select_package_by_import_id s x.crate_id).isNone

/-- A user-version record whose user or version lookup misses. -/
def userVersionUnresolved (s : Store) (sourceId : Nat) (x : UserVersionItem) : Bool :=
  (select_crates_user_by_import_id s x.published_by sourceId).isNone
  || (select_version_by_import_id s x.version_id).isNone

/-- A package-url record whose package or url lookup misses. -/
def packageURLUnresolved (s : Store) (x : PackageURLItem) : Bool :=
  (select_package_by_import_id s x.import_id).isNone
  || (select_url_by_url_and_type s x.url x.url_type_id).isNone

/-- One step of the dependency generator: the head record contributes a
fixed optional row and warning increment, independent of the tail. -/
theorem dep_gen_cons_shape (s : Store) (now : Nat) (p : DepItem) :
    ∃ (ro : Option DependsOnCand) (wi : Nat),
      ∀ l, dependency_object_generator s now (p :: l)
        = ((match ro with
            | none => (dependency_object_generator s now l).1
            | some r => r :: (dependency_object_generator s now l).1),
           (dependency_object_generator s now l).2 + wi) := by
  cases h1 : select_version_by_import_id s p.start_id with
  | none =>
    refine ⟨none, 1, fun l => ?_⟩
    simp [dependency_object_generator, h1]
  | some ver =>
    cases h2 : select_package_by_import_id s p.end_id with
    | none =>
      refine ⟨none, 1, fun l => ?_⟩
      simp [dependency_object_generator, h1, h2]
    | some pkg =>
      refine ⟨some
        { version_id := ver.1
          dependency_id := pkg.1
          semver_range := p.semver_range
          created_at := now
          updated_at := now }, 0, fun l => ?_⟩
      simp [dependency_object_generator, h1, h2]

/-- An unresolvable head dependency record is skipped with one warning. -/
theorem dep_gen_cons_skip (s : Store) (now : Nat) (x : DepItem)
    (hx : depUnresolved s x = true) (l : List DepItem) :
    dependency_object_generator s now (x :: l)
      = ((dependency_object_generator s now l).1,
         (dependency_object_generator s now l).2 + 1) := by
  unfold depUnresolved at hx
  cases h1 : select_version_by_import_id s x.start_id with
  | none =>
    simp [dependency_object_generator, h1]
  | some ver =>
    rw [h1] at hx
    have h2 : select_package_by_import_id s x.end_id = none := by
      cases h : select_package_by_import_id s x.end_id with
      | none => rfl
      | some pkg => rw [h] at hx; simp at hx
    simp [dependency_object_generator, h1, h2]

/-- Skipping propagates through any prefix: an unresolvable dependency
record anywhere in the stream contributes no row and exactly one
warning, and the rest of the stream is processed unchanged. -/
theorem dep_skip_middle (s : Store) (now : Nat) (x : DepItem)
    (hx : depUnresolved s x = true) :
    ∀ (pre post : List DepItem),
      (dependency_object_generator s now (pre ++ x :: post)).1
          = (dependency_object_generator s now (pre ++ post)).1
      ∧ (dependency_object_generator s now (pre ++ x :: post)).2
          = (dependency_object_generator s now (pre ++ post)).2 + 1
  | [], post => by
    simp only [List.nil_append]
    rw [dep_gen_cons_skip s now x hx post]
    exact ⟨rfl, rfl⟩
  | p :: pre, post => by
    have ih := dep_skip_middle s now x hx pre post
    obtain ⟨ro, wi, hshape⟩ := dep_gen_cons_shape s now p
    simp only [List.cons_append]
    rw [hshape (pre ++ x :: post), hshape (pre ++ post)]
    cases ro with
    | none => exact ⟨ih.1, by omega⟩
    | some r => exact ⟨by rw [ih.1], by omega⟩

/-- One step of the user-package generator. -/
theorem up_gen_cons_shape (s : Store) (sourceId : Nat) (p : UserPackageItem) :
    ∃ (ro : Option UserPackageCand) (wi : Nat),
      ∀ l, user_package_object_generator s sourceId (p :: l)
        = ((match ro with
            | none => (user_package_object_generator s sourceId l).1
            | some r => r :: (user_package_object_generator s sourceId l).1),
           (user_package_object_generator s sourceId l).2 + wi) := by
  cases h1 : select_crates_user_by_import_id s p.owner_id sourceId with
  | none =>
    refine ⟨none, 1, fun l => ?_⟩
    simp [user_package_object_generator, h1]
  | some user =>
    cases h2 : select_package_by_import_id s p.crate_id with
    | none =>
      refine ⟨none, 1, fun l => ?_⟩
      simp [user_package_object_generator, h1, h2]
    | some pkg =>
      refine ⟨some { user_id := user.1, package_id := pkg.1 }, 0, fun l => ?_⟩
      simp [user_package_object_generator, h1, h2]

/-- An unresolvable head user-package record is skipped with one
warning. -/
theorem up_gen_cons_skip (s : Store) (sourceId : Nat) (x : UserPackageItem)
    (hx : userPackageUnresolved s sourceId x = true) (l : List UserPackageItem) :
    user_package_object_generator s sourceId (x :: l)
      = ((user_package_object_generator s sourceId l).1,
         (user_package_object_generator s sourceId l).2 + 1) := by
  unfold userPackageUnresolved at hx
  cases h1 : select_crates_user_by_import_id s x.owner_id sourceId with
  | none =>
    simp [user_package_object_generator, h1]
  | some user =>
    rw [h1] at hx
    have h2 : select_package_by_import_id s x.crate_id = none := by
      cases h : select_package_by_import_id s x.crate_id with
      | none => rfl
      | some pkg => rw [h] at hx; simp at hx
    simp [user_package_object_generator, h1, h2]

/-- Mid-stream skip for user-package records. -/
theorem up_skip_middle (s : Store) (sourceId : Nat) (x : UserPackageItem)
    (hx : userPackageUnresolved s sourceId x = true) :
    ∀ (pre post : List UserPackageItem),
      (user_package_object_generator s sourceId (pre ++ x :: post)).1
          = (user_package_object_generator s sourceId (pre ++ post)).1
      ∧ (user_package_object_generator s sourceId (pre ++ x :: post)).2
          = (user_package_object_generator s sourceId (pre ++ post)).2 + 1
  | [], post => by
    simp only [List.nil_append]
    rw [up_gen_cons_skip s sourceId x hx post]
    exact ⟨rfl, rfl⟩
  | p :: pre, post => by
    have ih := up_skip_middle s sourceId x hx pre post
    obtain ⟨ro, wi, hshape⟩ := up_gen_cons_shape s sourceId p
    simp only [List.cons_append]
    rw [hshape (pre ++ x :: post), hshape (pre ++ post)]
    cases ro with
    | none => exact ⟨ih.1, by omega⟩
    | some r => exact ⟨by rw [ih.1], by omega⟩

/-- One step of the user-version generator. -/
theorem uv_gen_cons_shape (s : Store) (sourceId : Nat) (p : UserVersionItem) :
    ∃ (ro : Option UserVersionCand) (wi : Nat),
      ∀ l, user_version_object_generator s sourceId (p :: l)
        = ((match ro with
            | none => (user_version_object_generator s sourceId l).1
            | some r => r :: (user_version_object_generator s sourceId l).1),
           (user_version_object_generator s sourceId l).2 + wi) := by
  cases h1 : select_crates_user_by_import_id s p.published_by sourceId with
  | none =>
    refine ⟨none, 1, fun l => ?_⟩
    simp [user_version_object_generator, h1]
  | some user =>
    cases h2 : select_version_by_import_id s p.version_id with
    | none =>
      refine ⟨none, 1, fun l => ?_⟩
      simp [user_version_object_generator, h1, h2]
    | some ver =>
      refine ⟨some { user_id := user.1, version_id := ver.1 }, 0, fun l => ?_⟩
      simp [user_version_object_generator, h1, h2]

/-- An unresolvable head user-version record is skipped with one
warning. -/
theorem uv_gen_cons_skip (s : Store) (sourceId : Nat) (x : UserVersionItem)
    (hx : userVersionUnresolved s sourceId x = true) (l : List UserVersionItem) :
    user_version_object_generator s sourceId (x :: l)
      = ((user_version_object_generator s sourceId l).1,
         (user_version_object_generator s sourceId l).2 + 1) := by
  unfold userVersionUnresolved at hx
  cases h1 : select_crates_user_by_import_id s x.published_by sourceId with
  | none =>
    simp [user_version_object_generator, h1]
  | some user =>
    rw [h1] at hx
    have h2 : select_version_by_import_id s x.version_id = none := by
      cases h : select_version_by_import_id s x.version_id with
      | none => rfl
      | some ver => rw [h] at hx; simp at hx
    simp [user_version_object_generator, h1, h2]

/-- Mid-stream skip for user-version records. -/
theorem uv_skip_middle (s : Store) (sourceId : Nat) (x : UserVersionItem)
    (hx : userVersionUnresolved s sourceId x = true) :
    ∀ (pre post : List UserVersionItem),
      (user_version_object_generator s sourceId (pre ++ x :: post)).1
          = (user_version_object_generator s sourceId (pre ++ post)).1
      ∧ (user_version_object_generator s sourceId (pre ++ x :: post)).2
          = (user_version_object_generator s sourceId (pre ++ post)).2 + 1
  | [], post => by
    simp only [List.nil_append]
    rw [uv_gen_cons_skip s sourceId x hx post]
    exact ⟨rfl, rfl⟩
  | p :: pre, post => by
    have ih := uv_skip_middle s sourceId x hx pre post
    obtain ⟨ro, wi, hshape⟩ := uv_gen_cons_shape s sourceId p
    simp only [List.cons_append]
    rw [hshape (pre ++ x :: post), hshape (pre ++ post)]
    cases ro with
    | none => exact ⟨ih.1, by omega⟩
    | some r => exact ⟨by rw [ih.1], by omega⟩

/-- One step of the package-url generator. -/
theorem pu_gen_cons_shape (s : Store) (p : PackageURLItem) :
    ∃ (ro : Option PackageURLCand) (wi : Nat),
      ∀ l, package_url_object_generator s (p :: l)
        = ((match ro with
            | none => (package_url_object_generator s l).1
            | some r => r :: (package_url_object_generator s l).1),
           (package_url_object_generator s l).2 + wi) := by
  cases h1 : select_package_by_import_id s p.import_id with
  | none =>
    refine ⟨none, 1, fun l => ?_⟩
    simp [package_url_object_generator, h1]
  | some pkg =>
    cases h2 : select_url_by_url_and_type s p.url p.url_type_id with
    | none =>
      refine ⟨none, 1, fun l => ?_⟩
      simp [package_url_object_generator, h1, h2]
    | some url =>
      refine ⟨some { package_id := pkg.1, url_id := url.1 }, 0, fun l => ?_⟩
      simp [package_url_object_generator, h1, h2]

/-- An unresolvable head package-url record is skipped with one
warning. -/
theorem pu_gen_cons_skip (s : Store) (x : PackageURLItem)
    (hx : packageURLUnresolved s x = true) (l : List PackageURLItem) :
    package_url_object_generator s (x :: l)
      = ((package_url_object_generator s l).1,
         (package_url_object_generator s l).2 + 1) := by
  unfold packageURLUnresolved at hx
  cases h1 : select_package_by_import_id s x.import_id with
  | none =>
    simp [package_url_object_generator, h1]
  | some pkg =>
    rw [h1] at hx
    have h2 : select_url_by_url_and_type s x.url x.url_type_id = none := by
      cases h : select_url_by_url_and_type s x.url x.url_type_id with
      | none => rfl
      | some url => rw [h] at hx; simp at hx
    simp [package_url_object_generator, h1, h2]

/-- Mid-stream skip for package-url records. -/
theorem pu_skip_middle (s : Store) (x : PackageURLItem)
    (hx : packageURLUnresolved s x = true) :
    ∀ (pre post : List PackageURLItem),
      (package_url_object_generator s (pre ++ x :: post)).1
          = (package_url_object_generator s (pre ++ post)).1
      ∧ (package_url_object_generator s (pre ++ x :: post)).2
          = (package_url_object_generator s (pre ++ post)).2 + 1
  | [], post => by
    simp only [List.nil_append]
    rw [pu_gen_cons_skip s x hx post]
    exact ⟨rfl, rfl⟩
  | p :: pre, post => by
    have ih := pu_skip_middle s x hx pre post
    obtain ⟨ro, wi, hshape⟩ := pu_gen_cons_shape s p
    simp only [List.cons_append]
    rw [hshape (pre ++ x :: post), hshape (pre ++ post)]
    cases ro with
    | none => exact ⟨ih.1, by omega⟩
    | some r => exact ⟨by rw [ih.1], by omega⟩

/-! ## C4: warn-and-skip on unresolvable references -/

/-- C4: in every reference-bearing load operation, a record whose
referenced entity cannot be resolved contributes zero rows and exactly
one warning, and the remaining records are processed unchanged (the
builders are total functions: no error is raised or propagated).  For
the point-lookup builders (dependencies, user-packages, user-versions,
package-urls) this is stated positionally; for the cache-based versions
builder, the total row count equals the number of resolvable records
and the warning count the number of unresolvable ones. -/
theorem C4_reference_drop :
    (∀ (s : Store) (now : Nat) (pre post : List DepItem) (x : DepItem),
        depUnresolved s x = true →
        (dependency_object_generator s now (pre ++ x :: post)).1
            = (dependency_object_generator s now (pre ++ post)).1
        ∧ (dependency_object_generator s now (pre ++ x :: post)).2
            = (dependency_object_generator s now (pre ++ post)).2 + 1)
    ∧ (∀ (s : Store) (sourceId : Nat) (pre post : List UserPackageItem)
          (x : UserPackageItem),
        userPackageUnresolved s sourceId x = true →
        (user_package_object_generator s sourceId (pre ++ x :: post)).1
            = (user_package_object_generator s sourceId (pre ++ post)).1
        ∧ (user_package_object_generator s sourceId (pre ++ x :: post)).2
            = (user_package_object_generator s sourceId (pre ++ post)).2 + 1)
    ∧ (∀ (s : Store) (sourceId : Nat) (pre post : List UserVersionItem)
          (x : UserVersionItem),
        userVersionUnresolved s sourceId x = true →
        (user_version_object_generator s sourceId (pre ++ x :: post)).1
            = (user_version_object_generator s sourceId (pre ++ post)).1
        ∧ (user_version_object_generator s sourceId (pre ++ x :: post)).2
            = (user_version_object_generator s sourceId (pre ++ post)).2 + 1)
    ∧ (∀ (s : Store) (pre post : List PackageURLItem) (x : PackageURLItem),
        packageURLUnresolved s x = true →
        (package_url_object_generator s (pre ++ x :: post)).1
            = (package_url_object_generator s (pre ++ post)).1
        ∧ (package_url_object_generator s (pre ++ x :: post)).2
            = (package_url_object_generator s (pre ++ post)).2 + 1)
    ∧ (∀ (s : Store) (items : List VersionItem),
        (version_object_generator s items).2.1.flatten.length
            = items.countP (fun x => versionResolvable s x)
        ∧ (version_object_generator s items).2.2
            = items.countP (fun x => !versionResolvable s x)) := by
  refine ⟨?_, ?_, ?_, ?_, ?_⟩
  · intro s now pre post x hx
    exact dep_skip_middle s now x hx pre post
  · intro s sourceId pre post x hx
    exact up_skip_middle s sourceId x hx pre post
  · intro s sourceId pre post x hx
    exact uv_skip_middle s sourceId x hx pre post
  · intro s pre post x hx
    exact pu_skip_middle s x hx pre post
  · intro s items
    have hsound : pkgCacheSound ⟨s, [], []⟩ := by
      intro k hk
      simp [cacheGet] at hk
    obtain ⟨h1, h2⟩ := version_go_count items ⟨s, [], []⟩ [] hsound
    simp only [List.nil_append] at h1 h2
    unfold version_object_generator
    constructor
    · rw [h1]
      simp only [versionResolvable_eq_any]
    · rw [h2]
      simp only [versionResolvable_eq_any]

/-- Concrete dependency record for the C4 witness: both lookups miss on
the empty store. -/
def depItemW : DepItem :=
  { start_id := "v1", end_id := "p1", semver_range := "^1",
    dependency_type := "normal" }

/-- Witness for C4: on the empty store, a single dependency record with
an unresolvable version reference yields no row and one warning. -/
theorem C4_reference_drop_witness :
    depUnresolved emptyStore depItemW = true
    ∧ (dependency_object_generator emptyStore 7 [depItemW]).1 = []
    ∧ (dependency_object_generator emptyStore 7 [depItemW]).2 = 1 := by
  have h := C4_reference_drop.1 emptyStore 7 [] [] depItemW rfl
  refine ⟨rfl, ?_, ?_⟩
  · simpa [dependency_object_generator] using h.1
  · simpa [dependency_object_generator] using h.2

/-! ## License-cache behaviour (for C5) -/

/-- Key presence in the license cache after a fill. -/
theorem cacheGet_fill_lic_isSome (st : VGenState) (C : List VersionItem) (k : String) :
    (cacheGet (query_packages_and_licenses st C).licCache k).isSome
      = ((cacheGet st.licCache k).isSome
         || (select_licenses_by_name st.store (licenseNamesOf C)).any
              (fun r => r.2.name == k)) := by
  simp only [query_packages_and_licenses]
  have h := cacheGet_foldl_cacheSet_isSome (fun r : Nat × LicenseCand => r.2.name)
    (fun r => r.1) (select_licenses_by_name st.store (licenseNamesOf C)) st.licCache k
  rw [← cacheGet_isSome_eq_any] at h
  exact h

/-- Overwriting the first matching binding makes the assigned pair the
first match. -/
theorem find?_map_overwrite (k : String) (v : Nat) :
    ∀ (c : List (String × Nat)), c.any (fun p => p.1 == k) = true →
      (c.map (fun p => if p.1 == k then (k, v) else p)).find?
          (fun p => p.1 == k) = some (k, v)
  | [], h => by simp at h
  | p :: ps, h => by
    by_cases hp : (p.1 == k) = true
    · simp only [List.map_cons, if_pos hp]
      rw [List.find?_cons_of_pos _ (by simp)]
    · simp only [List.map_cons, if_neg hp]
      rw [List.find?_cons_of_neg _ (by simpa using hp)]
      apply find?_map_overwrite k v ps
      simp only [List.any_cons] at h
      rcases Bool.or_eq_true_iff.mp h with h1 | h2
      · exact absurd h1 hp
      · exact h2

/-- Python dictionary assignment followed by lookup of the same key. -/
theorem cacheGet_cacheSet_self (c : List (String × Nat)) (k : String) (v : Nat) :
    cacheGet (cacheSet c k v) k = some v := by
  unfold cacheGet cacheSet
  by_cases h : c.any (fun p => p.1 == k) = true
  · rw [if_pos h, find?_map_overwrite k v c h]
    rfl
  · rw [if_neg h, List.find?_append]
    have hfind : c.find? (fun p => p.1 == k) = none := by
      rw [List.find?_eq_none]
      intro p hp hpk
      exact h (List.any_eq_true.mpr ⟨p, hp, hpk⟩)
    rw [hfind]
    simp

/-- On a store missing the name, the create path of
select_license_by_name appends exactly one License row with the next
surrogate id and returns that id. -/
theorem select_license_by_name_create_eq (s : Store) (n : String)
    (hnew : s.licenses.find? (fun r => r.2.name == n) = none) :
    select_license_by_name s n true
      = (some s.nextId,
         { s with licenses := s.licenses ++ [(s.nextId, ⟨n⟩)],
                  nextId := s.nextId + 1 }) := by
  unfold select_license_by_name
  rw [hnew]
  simp only [if_true]
  rw [List.find?_append, hnew]
  simp

/-! ## C5: license auto-creation -/

/-- C5: two version records with the same never-before-seen license
name, both with resolvable packages, lead insert_versions to create
exactly one License row (with the next surrogate id) and to emit two
version rows that both reference that id. -/
theorem C5_license_autocreation (s : Store) (x1 x2 : VersionItem)
    (hlic : x1.license = x2.license)
    (hnew : s.licenses.find? (fun r => r.2.name == x1.license) = none)
    (hp1 : versionResolvable s x1 = true)
    (hp2 : versionResolvable s x2 = true) :
    (version_object_generator s [x1, x2]).1.store.licenses
        = s.licenses ++ [(s.nextId, ⟨x1.license⟩)]
    ∧ (version_object_generator s [x1, x2]).2.1.flatten.map
          (fun v => v.license_id) = [s.nextId, s.nextId] := by
  have hsound0 : pkgCacheSound ⟨s, [], []⟩ := by
    intro k hk
    simp [cacheGet] at hk
  have h1s : (cacheGet (query_packages_and_licenses ⟨s, [], []⟩
      [x1, x2]).pkgCache x1.crate_id).isSome = true := by
    rw [fill_pkg_hit ⟨s, [], []⟩ [x1, x2] x1 (by simp) hsound0]
    rw [← versionResolvable_eq_any s x1]
    exact hp1
  have h2s : (cacheGet (query_packages_and_licenses ⟨s, [], []⟩
      [x1, x2]).pkgCache x2.crate_id).isSome = true := by
    rw [fill_pkg_hit ⟨s, [], []⟩ [x1, x2] x2 (by simp) hsound0]
    rw [← versionResolvable_eq_any s x2]
    exact hp2
  obtain ⟨pid1, hpid1⟩ := Option.isSome_iff_exists.mp h1s
  obtain ⟨pid2, hpid2⟩ := Option.isSome_iff_exists.mp h2s
  have hmiss : cacheGet (query_packages_and_licenses ⟨s, [], []⟩
      [x1, x2]).licCache x1.license = none := by
    have hany : (select_licenses_by_name (⟨s, [], []⟩ : VGenState).store
        (licenseNamesOf [x1, x2])).any (fun r => r.2.name == x1.license)
          = false := by
      rw [← Bool.not_eq_true]
      intro hv
      unfold select_licenses_by_name at hv
      rw [List.any_filter, List.any_eq_true] at hv
      obtain ⟨r, hr, hpr⟩ := hv
      have h2 := (Bool.and_eq_true_iff.mp hpr).2
      exact absurd h2 (by simpa using List.find?_eq_none.mp hnew r hr)
    have hiss : (cacheGet (query_packages_and_licenses ⟨s, [], []⟩
        [x1, x2]).licCache x1.license).isSome = false := by
      rw [cacheGet_fill_lic_isSome, hany]
      simp [cacheGet]
    cases hv : cacheGet (query_packages_and_licenses ⟨s, [], []⟩
        [x1, x2]).licCache x1.license with
    | none => rfl
    | some v => rw [hv] at hiss; simp at hiss
  set Q := query_packages_and_licenses ⟨s, [], []⟩ [x1, x2] with hQ
  have hQstore : Q.store = s := by rw [hQ]; rfl
  set S1 : Store :=
    { s with licenses := s.licenses ++ [(s.nextId, ⟨x1.license⟩)],
             nextId := s.nextId + 1 } with hS1
  set row1 : VersionCand :=
    { package_id := pid1, version := x1.version, import_id := x1.import_id,
      size := x1.size, published_at := x1.published_at,
      license_id := s.nextId, downloads := x1.downloads,
      checksum := x1.checksum } with hrow1
  set row2 : VersionCand :=
    { package_id := pid2, version := x2.version, import_id := x2.import_id,
      size := x2.size, published_at := x2.published_at,
      license_id := s.nextId, downloads := x2.downloads,
      checksum := x2.checksum } with hrow2
  set st2 : VGenState :=
    { store := S1, pkgCache := Q.pkgCache,
      licCache := cacheSet Q.licCache x1.license s.nextId } with hst2
  have hb1 : buildVersionRow Q x1 = (st2, some row1, 0) := by
    unfold buildVersionRow
    rw [hpid1, hmiss, hQstore,
      select_license_by_name_create_eq s x1.license hnew]
  have hb2 : buildVersionRow st2 x2 = (st2, some row2, 0) := by
    unfold buildVersionRow
    have hc1 : st2.pkgCache = Q.pkgCache := by rw [hst2]
    have hc2 : st2.licCache = cacheSet Q.licCache x1.license s.nextId := by
      rw [hst2]
    rw [hc1, hpid2, hc2, ← hlic, cacheGet_cacheSet_self]
  have hchunk : buildChunkRows Q [x1, x2] = (st2, [row1, row2], 0) := by
    simp only [buildChunkRows, hb1, hb2]
  have hpc : processChunk ⟨s, [], []⟩ [x1, x2] = (st2, [row1, row2], 0) := by
    unfold processChunk
    rw [← hQ]
    exact hchunk
  have hgen : version_object_generator s [x1, x2] = (st2, [[row1, row2]], 0) := by
    unfold version_object_generator
    simp [version_object_generator_go, DEFAULT_BATCH_SIZE, hpc]
  rw [hgen]
  constructor
  · show st2.store.licenses = s.licenses ++ [(s.nextId, ⟨x1.license⟩)]
    rw [hst2]
  · show ([[row1, row2]].flatten.map (fun v => v.license_id))
        = [s.nextId, s.nextId]
    rw [hrow1, hrow2]
    rfl

/-- Concrete package row for the C5 witness. -/
def pkgAW : PackageCand :=
  { derived_id := "crates/a", name := "a", package_manager_id := 0,
    import_id := "A", readme := "" }

/-- Concrete store for the C5 witness: one package "A", no licenses. -/
def storeW : Store :=
  { nextId := 5
    packages := [(1, pkgAW)]
    versions := []
    licenses := []
    users := []
    urls := []
    sources := [] }

/-- First concrete version record for the C5 witness. -/
def vx1 : VersionItem :=
  { crate_id := "A", license := "MIT", version := "1.0", import_id := "v1",
    size := 10, published_at := 3, downloads := 0, checksum := "x" }

/-- Second concrete version record for the C5 witness. -/
def vx2 : VersionItem :=
  { crate_id := "A", license := "MIT", version := "2.0", import_id := "v2",
    size := 11, published_at := 4, downloads := 1, checksum := "y" }

/-- Witness for C5: two "MIT" records against a store without that
license create one License row with id 5 and both versions point at it. -/
theorem C5_license_autocreation_witness :
    vx1.license = vx2.license
    ∧ storeW.licenses.find? (fun r => r.2.name == vx1.license) = none
    ∧ versionResolvable storeW vx1 = true
    ∧ versionResolvable storeW vx2 = true
    ∧ (version_object_generator storeW [vx1, vx2]).1.store.licenses
        = [(5, ⟨"MIT"⟩)]
    ∧ (version_object_generator storeW [vx1, vx2]).2.1.flatten.map
        (fun v => v.license_id) = [5, 5] := by
  have h := C5_license_autocreation storeW vx1 vx2 rfl rfl (by decide) (by decide)
  refine ⟨rfl, rfl, by decide, by decide, ?_, ?_⟩
  · simpa [storeW, vx1] using h.1
  · simpa [storeW] using h.2

/-! ## Chunk structure of the versions generator (for C8/C9) -/

/-- With every reference resolvable, the generator yields exactly one
list per `DEFAULT_BATCH_SIZE`-chunk of the raw stream: full mid-stream
chunks yield unconditionally and a nonempty remainder builds a nonempty
row list, so it yields as well. -/
theorem version_go_chunks :
    ∀ (rest : List VersionItem) (st : VGenState) (buf : List VersionItem),
      pkgCacheSound st →
      buf.length < DEFAULT_BATCH_SIZE →
      (∀ x ∈ buf ++ rest,
        st.store.packages.any (fun r => r.2.import_id == x.crate_id) = true) →
      (version_object_generator_go st buf rest).2.1.length
        = (chunksB DEFAULT_BATCH_SIZE (buf ++ rest)).length
  | [], st, buf, hsound, hlen, hres => by
    simp only [version_object_generator_go]
    cases hbuf : buf.isEmpty with
    | true =>
      have hb : buf = [] := by simpa [List.isEmpty_iff] using hbuf
      simp [hb]
    | false =>
      have hb : buf ≠ [] := by simpa [List.isEmpty_iff] using hbuf
      rw [if_neg (by simp [hbuf])]
      rcases hpc : processChunk st buf with ⟨st1, vs, w⟩
      obtain ⟨h1, h2, h3, h4⟩ := processChunk_spec st buf hsound
      rw [hpc] at h1
      dsimp only at h1 ⊢
      have hvslen : vs.length = buf.length := by
        rw [h1]
        exact List.countP_eq_length.mpr (fun x hx => hres x (by simpa using hx))
      have hvs : vs.isEmpty = false := by
        cases hv : vs.isEmpty with
        | false => rfl
        | true =>
          have : vs = [] := by simpa [List.isEmpty_iff] using hv
          rw [this] at hvslen
          simp at hvslen
          exact absurd hvslen.symm (by simpa [List.length_eq_zero] using hb)
      rw [if_neg (by simp [hvs]), List.append_nil]
      rw [chunksB_length (by decide : 0 < DEFAULT_BATCH_SIZE)]
      have hpos : 0 < buf.length := List.length_pos.mpr hb
      unfold DEFAULT_BATCH_SIZE at *
      simp only [List.length_singleton]
      omega
  | x :: rest, st, buf, hsound, hlen, hres => by
    simp only [version_object_generator_go]
    by_cases hfull : DEFAULT_BATCH_SIZE ≤ (buf ++ [x]).length
    · rw [if_pos hfull]
      have hlen1 : (buf ++ [x]).length = DEFAULT_BATCH_SIZE := by
        simp only [List.length_append, List.length_cons, List.length_nil] at *
        omega
      rcases hpc : processChunk st (buf ++ [x]) with ⟨st1, vs, w⟩
      obtain ⟨h1, h2, h3, h4⟩ := processChunk_spec st (buf ++ [x]) hsound
      rw [hpc] at h3 h4
      dsimp only at h3 h4 ⊢
      rcases hgo : version_object_generator_go st1 [] rest with ⟨st2, cs, w2⟩
      have hres1 : ∀ y ∈ ([] : List VersionItem) ++ rest,
          st1.store.packages.any (fun r => r.2.import_id == y.crate_id)
            = true := by
        intro y hy
        rw [h3]
        exact hres y (by simp at hy ⊢; right; right; exact hy)
      have ih := version_go_chunks rest st1 [] h4 (by decide) hres1
      rw [hgo] at ih
      dsimp only at ih
      simp only [List.nil_append] at ih
      have hsplit : buf ++ x :: rest = (buf ++ [x]) ++ rest := by simp
      rw [hsplit, chunksB_eq_cons (by decide : 0 < DEFAULT_BATCH_SIZE)
        (by simp : (buf ++ [x]) ++ rest ≠ [])]
      rw [← hlen1, List.take_left, List.drop_left]
      simp only [List.length_cons, ih]
      rw [hlen1]
    · rw [if_neg hfull]
      have hlen1 : (buf ++ [x]).length < DEFAULT_BATCH_SIZE := by omega
      have hres1 : ∀ y ∈ (buf ++ [x]) ++ rest,
          st.store.packages.any (fun r => r.2.import_id == y.crate_id)
            = true := by
        intro y hy
        apply hres
        simp at hy ⊢
        tauto
      have ih := version_go_chunks rest st (buf ++ [x]) hsound hlen1 hres1
      have hsplit : buf ++ x :: rest = (buf ++ [x]) ++ rest := by simp
      rw [hsplit]
      exact ih

/-! ## C8: chunk-at-a-time handoff from insert_versions to the batcher -/

/-- Counterexample to C8 as stated: for an empty input (`N = 0`, which
the claim covers via "regardless of N") the batcher receives zero items
and performs zero bulk-insert flushes, not one. -/
theorem C8_claim_counterexample :
    (version_object_generator emptyStore []).2.1 = []
    ∧ (insert_versions_flushes emptyStore []).length = 0
    ∧ ¬ (insert_versions_flushes emptyStore []).length = 1 := by
  refine ⟨rfl, rfl, ?_⟩
  intro h
  simp [insert_versions_flushes, version_object_generator,
    version_object_generator_go, batchRun, batchGo] at h

/-- C8 amended: with every package reference resolvable, the versions
generator hands the batcher one item (a whole list) per
`DEFAULT_BATCH_SIZE`-chunk of the raw stream — the ceiling of
`N / 10000` items — and for every nonempty input with
`N ≤ 10000 * 10000` the batcher performs exactly one flush (a single
`_insert_batch` call covering all chunks). -/
theorem C8_versions_chunking (s : Store) (items : List VersionItem)
    (hres : ∀ x ∈ items, versionResolvable s x = true) :
    (version_object_generator s items).2.1.length
        = (items.length + DEFAULT_BATCH_SIZE - 1) / DEFAULT_BATCH_SIZE
    ∧ (items ≠ [] →
        items.length ≤ DEFAULT_BATCH_SIZE * DEFAULT_BATCH_SIZE →
        (insert_versions_flushes s items).length = 1) := by
  have hsound : pkgCacheSound ⟨s, [], []⟩ := by
    intro k hk
    simp [cacheGet] at hk
  have hres' : ∀ x ∈ ([] : List VersionItem) ++ items,
      (⟨s, [], []⟩ : VGenState).store.packages.any
        (fun r => r.2.import_id == x.crate_id) = true := by
    intro x hx
    rw [← versionResolvable_eq_any]
    exact hres x (by simpa using hx)
  have hchunks := version_go_chunks items ⟨s, [], []⟩ [] hsound (by decide) hres'
  simp only [List.nil_append] at hchunks
  have hcount : (version_object_generator s items).2.1.length
      = (items.length + DEFAULT_BATCH_SIZE - 1) / DEFAULT_BATCH_SIZE := by
    unfold version_object_generator
    rw [hchunks, chunksB_length (by decide : 0 < DEFAULT_BATCH_SIZE)]
  refine ⟨hcount, ?_⟩
  intro hne hsize
  unfold insert_versions_flushes
  rw [batchRun_eq_chunksB (by decide : 0 < insert_versions_batch_size),
    chunksB_length (by decide : 0 < insert_versions_batch_size)]
  rw [hcount]
  have hpos : 0 < items.length := List.length_pos.mpr hne
  unfold insert_versions_batch_size DEFAULT_BATCH_SIZE at *
  omega

/-- Witness for C8: a single resolvable record gives one chunk and one
flush. -/
theorem C8_versions_chunking_witness :
    (∀ x ∈ [vx1], versionResolvable storeW x = true)
    ∧ (version_object_generator storeW [vx1]).2.1.length = 1
    ∧ (insert_versions_flushes storeW [vx1]).length = 1 := by
  have h := C8_versions_chunking storeW [vx1] (by decide)
  refine ⟨by decide, ?_, ?_⟩
  · have h1 := h.1
    norm_num [DEFAULT_BATCH_SIZE] at h1
    exact h1
  · exact h.2 (by decide) (by decide)

/-! ## C9: empty-yield asymmetry between the two flush paths -/

/-- On a store with no packages and no licenses and an empty package
cache, the bulk-query fill is the identity. -/
theorem query_fill_all_empty (st : VGenState) (C : List VersionItem)
    (hpk : st.store.packages = []) (hlc : st.store.licenses = []) :
    query_packages_and_licenses st C = st := by
  simp only [query_packages_and_licenses, select_packages_by_import_ids,
    select_licenses_by_name, hpk, hlc, List.filter_nil, List.foldl_nil]

/-- With an empty package cache every record misses: no rows, one
warning each, state unchanged. -/
theorem buildChunkRows_all_miss (st : VGenState) (hcache : st.pkgCache = []) :
    ∀ C : List VersionItem, buildChunkRows st C = (st, [], C.length)
  | [] => by simp [buildChunkRows]
  | x :: C => by
    have hb : buildVersionRow st x = (st, none, 1) := by
      simp [buildVersionRow, hcache, cacheGet]
    simp [buildChunkRows, hb, buildChunkRows_all_miss st hcache C]
    omega

/-- Chunk processing over an empty store skips every record. -/
theorem processChunk_all_miss (st : VGenState) (hpk : st.store.packages = [])
    (hlc : st.store.licenses = []) (hcache : st.pkgCache = [])
    (C : List VersionItem) :
    processChunk st C = (st, [], C.length) := by
  unfold processChunk
  rw [query_fill_all_empty st C hpk hlc]
  exact buildChunkRows_all_miss st hcache C

/-- A full all-skipped buffer still yields one (empty) chunk. -/
theorem version_go_replicate_all_miss (r : VersionItem) (st : VGenState)
    (hpk : st.store.packages = []) (hlc : st.store.licenses = [])
    (hcache : st.pkgCache = []) :
    ∀ (m k : Nat), k + m = DEFAULT_BATCH_SIZE → 1 ≤ m →
      version_object_generator_go st (List.replicate k r) (List.replicate m r)
        = (st, [[]], DEFAULT_BATCH_SIZE)
  | 0, k, hkm, hm => absurd hm (by omega)
  | 1, k, hkm, _ => by
    simp only [List.replicate_succ, List.replicate_zero,
      version_object_generator_go]
    rw [if_pos (by simp [List.length_replicate]; omega)]
    have hrep : List.replicate k r ++ [r] = List.replicate (k + 1) r :=
      (List.replicate_succ' k r).symm
    rw [hrep, processChunk_all_miss st hpk hlc hcache (List.replicate (k + 1) r)]
    simp only [version_object_generator_go, List.isEmpty_nil, if_true]
    simp [List.length_replicate]
    omega
  | m + 2, k, hkm, _ => by
    simp only [List.replicate_succ, version_object_generator_go]
    rw [if_neg (by simp [List.length_replicate]; omega)]
    have hrep : List.replicate k r ++ [r] = List.replicate (k + 1) r :=
      (List.replicate_succ' k r).symm
    rw [hrep]
    exact version_go_replicate_all_miss r st hpk hlc hcache (m + 1) (k + 1)
      (by omega) (by omega)

/-- C9: the two flush paths of the versions generator disagree on empty
output.  A full chunk of `DEFAULT_BATCH_SIZE` records that are all
skipped still yields an empty list, which `_batch` then carries into a
bulk-insert flush; the end-of-stream remainder path yields nothing when
no version was constructed. -/
theorem C9_empty_chunk_yield (r : VersionItem) :
    (version_object_generator emptyStore
        (List.replicate DEFAULT_BATCH_SIZE r)).2.1 = [[]]
    ∧ batchRun (version_object_generator emptyStore
          (List.replicate DEFAULT_BATCH_SIZE r)).2.1
        insert_versions_batch_size = [[[]]]
    ∧ (version_object_generator emptyStore (List.replicate 3 r)).2.1 = [] := by
  have hfull := version_go_replicate_all_miss r ⟨emptyStore, [], []⟩ rfl rfl rfl
    DEFAULT_BATCH_SIZE 0 (by omega) (by decide)
  have hgenfull : version_object_generator emptyStore
      (List.replicate DEFAULT_BATCH_SIZE r)
        = (⟨emptyStore, [], []⟩, [[]], DEFAULT_BATCH_SIZE) := by
    unfold version_object_generator
    simpa using hfull
  have hpc3 := processChunk_all_miss ⟨emptyStore, [], []⟩ rfl rfl rfl [r, r, r]
  refine ⟨by rw [hgenfull], by rw [hgenfull]; rfl, ?_⟩
  show (version_object_generator emptyStore [r, r, r]).2.1 = []
  unfold version_object_generator
  simp [version_object_generator_go, DEFAULT_BATCH_SIZE, hpc3]

/-! ## C1: idempotent replay of the load operations -/

/-- C1 (code evaluation at the failing input): the versions load on a
single record whose package reference resolves hands `_batch` a list
item; the flush maps `to_dict` over the batch, which a Python list does
not have, so the load raises instead of completing — on the first run,
before any replay. -/
theorem C1_insert_versions_runtime_failure :
    insert_versions storeW [vx1]
      = Except.error "AttributeError: list object has no attribute to_dict" := by
  rfl

end Teawel
